import Mathlib

/-!
Verification of the Projection & Amortization Engine
(`src/backend/services/simulator.py`) against its specification.

The Python source is shallowly embedded: floats become exact rationals,
Python dict-based debt records become structures, the month loop becomes a
fuel-bounded recursion (fuel 600 matches the source's hard cap), and
`numpy` aggregation primitives (`np.median`, `np.percentile` with the
default linear-interpolation method) are defined by their documented
mathematics. Python's stable `sorted` is modelled by a stable insertion
sort.
-/

set_option linter.unusedVariables false

/-- Python's `round(x, 2)`, modelled on exact rationals as rounding
`100*x` to the nearest integer. -/
def round2 (q : ℚ) : ℚ := (round (100 * q) : ℤ) / 100

/-- Python's `round(x, 1)` on exact rationals. -/
def round1 (q : ℚ) : ℚ := (round (10 * q) : ℤ) / 10

/-- One input debt dict: `{"name", "balance", "rate", "min_payment"}`
(simulator.py line 216 / lines 99, 109-114). -/
structure DebtInput where
  name : String
  balance : ℚ
  rate : ℚ
  min_payment : ℚ
deriving DecidableEq

/-- One working debt dict of the simulation (`active` entries,
simulator.py lines 110-118). -/
structure DebtState where
  name : String
  balance : ℚ
  rate : ℚ
  min_payment : ℚ
  interest_paid : ℚ
  months : ℕ
  original_balance : ℚ
deriving DecidableEq, Inhabited

/-- One per-debt entry of the returned result (simulator.py lines 166-171). -/
structure PerDebtResult where
  name : String
  original_balance : ℚ
  interest_paid : ℚ
  months_to_payoff : ℕ
deriving DecidableEq

/-- `DebtPayoffResult` (simulator.py lines 32-38). -/
structure DebtPayoffResult where
  strategy : String
  debts : List PerDebtResult
  total_interest : ℚ
  months_to_free : ℕ
  total_paid : ℚ
deriving DecidableEq

/-- Interest accrual on one debt for one month (simulator.py lines 130-135):
returns the updated debt and the accrued interest. -/
def accrueDebt (d : DebtState) : DebtState × ℚ :=
  if 0 < d.balance then
    let mi := d.balance * (d.rate / 100 / 12)
    ({ d with balance := d.balance + mi, interest_paid := d.interest_paid + mi }, mi)
  else (d, 0)

/-- Interest accrual pass over all debts; the second component is the total
interest added to `total_interest` this month. -/
def accrue (l : List DebtState) : List DebtState × ℚ :=
  (l.map fun d => (accrueDebt d).1, (l.map fun d => (accrueDebt d).2).sum)

/-- Minimum payment on one debt, capped at its balance
(simulator.py lines 144-149): returns the updated debt and the amount paid. -/
def payMinDebt (d : DebtState) : DebtState × ℚ :=
  if 0 < d.balance then
    let p := min d.min_payment d.balance
    ({ d with balance := d.balance - p }, p)
  else (d, 0)

/-- Minimum-payment pass over all debts (in list order, as in the source). -/
def payMins (l : List DebtState) : List DebtState × ℚ :=
  (l.map fun d => (payMinDebt d).1, (l.map fun d => (payMinDebt d).2).sum)

/-- Snowball sort key (simulator.py line 141): the balance when positive,
`float('inf')` otherwise. -/
def snowballKey (d : DebtState) : WithTop ℚ :=
  if 0 < d.balance then (d.balance : WithTop ℚ) else ⊤

/-- Stable insertion of `a` into a list: `a` is placed before the first
element `b` with `le a b`, so equal keys keep their original order
(Python's `sorted` is stable). -/
def orderedInsertBy (le : ℕ → ℕ → Bool) (a : ℕ) : List ℕ → List ℕ
  | [] => [a]
  | b :: l => if le a b then a :: b :: l else b :: orderedInsertBy le a l

/-- Stable insertion sort on a list of indices. -/
def insertionSortBy (le : ℕ → ℕ → Bool) : List ℕ → List ℕ
  | [] => []
  | a :: l => orderedInsertBy le a (insertionSortBy le l)

/-- Priority order of debt indices (simulator.py lines 137-141):
avalanche sorts by descending rate, everything else by the snowball key. -/
def sortOrder (isAvalanche : Bool) (l : List DebtState) : List ℕ :=
  if isAvalanche then
    insertionSortBy
      (fun i j => decide ((l.getD j default).rate ≤ (l.getD i default).rate))
      (List.range l.length)
  else
    insertionSortBy
      (fun i j => decide (snowballKey (l.getD i default) ≤ snowballKey (l.getD j default)))
      (List.range l.length)

/-- Applying the remaining extra payment to the debt at index `i`
(simulator.py lines 152-158); the state is (debts, remaining_extra). -/
def applyExtraStep (st : List DebtState × ℚ) (i : ℕ) : List DebtState × ℚ :=
  let d := st.1.getD i default
  if 0 < d.balance ∧ 0 < st.2 then
    let p := min st.2 d.balance
    (st.1.set i { d with balance := d.balance - p }, st.2 - p)
  else st

/-- Extra-payment pass, visiting debts in priority order. -/
def applyExtra (l : List DebtState) (extra : ℚ) (order : List ℕ) :
    List DebtState × ℚ :=
  order.foldl applyExtraStep (l, extra)

/-- Recording of the month index on debts still carrying a positive balance
(simulator.py lines 160-162). -/
def setMonths (m : ℕ) (l : List DebtState) : List DebtState :=
  l.map fun d => if 0 < d.balance then { d with months := m } else d

/-- Mutable state of the payoff loop (simulator.py lines 120-123). -/
structure SimState where
  active : List DebtState
  total_interest : ℚ
  total_paid : ℚ
  months : ℕ
deriving DecidableEq

/-- One iteration of the payoff loop (simulator.py lines 125-162): increment
the month, accrue interest, compute the priority order on the post-interest
balances, pay minimums, apply the extra in priority order, and stamp the
month on debts that still owe. The extra paid equals `extra` minus the
remaining extra after the pass. -/
def stepMonth (isAvalanche : Bool) (extra : ℚ) (s : SimState) : SimState :=
  let m := s.months + 1
  let ai := accrue s.active
  let order := sortOrder isAvalanche ai.1
  let pm := payMins ai.1
  let ae := applyExtra pm.1 extra order
  { active := setMonths m ae.1
    total_interest := s.total_interest + ai.2
    total_paid := s.total_paid + pm.2 + (extra - ae.2)
    months := m }

/-- Loop guard: some balance exceeds the 0.01 epsilon (simulator.py line 125). -/
def anyOverEps (l : List DebtState) : Bool :=
  l.any fun d => decide ((1 : ℚ) / 100 < d.balance)

/-- The payoff loop, fuel-bounded; fuel 600 together with the
`months < 600` guard reproduces the source's 50-year cap. -/
def simLoop (isAvalanche : Bool) (extra : ℚ) : ℕ → SimState → SimState
  | 0, s => s
  | fuel + 1, s =>
    if anyOverEps s.active && decide (s.months < 600) then
      simLoop isAvalanche extra fuel (stepMonth isAvalanche extra s)
    else s

/-- Deep copy of one input debt into a working record
(simulator.py lines 108-118). -/
def initDebt (d : DebtInput) : DebtState :=
  { name := d.name, balance := d.balance, rate := d.rate,
    min_payment := d.min_payment, interest_paid := 0, months := 0,
    original_balance := d.balance }

/-- Result assembly for one debt (simulator.py lines 166-171). -/
def mkPerDebt (d : DebtState) : PerDebtResult :=
  { name := d.name, original_balance := round2 d.original_balance,
    interest_paid := round2 d.interest_paid, months_to_payoff := d.months }

/-- `simulate_debt_payoff` (simulator.py lines 98-175). -/
def simulateDebtPayoff (debts : List DebtInput) (extra_monthly : ℚ)
    (strategy : String) : DebtPayoffResult :=
  if debts.isEmpty then
    { strategy := strategy, debts := [], total_interest := 0,
      months_to_free := 0, total_paid := 0 }
  else
    let s0 : SimState :=
      { active := debts.map initDebt, total_interest := 0, total_paid := 0,
        months := 0 }
    let sf := simLoop (strategy == "avalanche") extra_monthly 600 s0
    { strategy := strategy
      debts := sf.active.map mkPerDebt
      total_interest := round2 sf.total_interest
      months_to_free := sf.months
      total_paid := round2 sf.total_paid }

/-- The debt-payoff portion of the orchestrator's result
(simulator.py lines 225-229). -/
structure DebtComparison where
  avalanche : DebtPayoffResult
  snowball : DebtPayoffResult
  savings_vs_snowball : ℚ
deriving DecidableEq

/-- The debt-payoff comparison computed by `project_profile`
(simulator.py lines 182, 214-229): `surplus = monthly_income -
monthly_expenses`, and both strategies run with
`extra_monthly = max(0, surplus * 0.3)`. -/
def projectProfileDebt (monthly_income monthly_expenses : ℚ)
    (debts : List DebtInput) : DebtComparison :=
  let surplus := monthly_income - monthly_expenses
  let av := simulateDebtPayoff debts (max 0 (surplus * (3 / 10))) "avalanche"
  let sb := simulateDebtPayoff debts (max 0 (surplus * (3 / 10))) "snowball"
  { avalanche := av, snowball := sb
    savings_vs_snowball := round2 (sb.total_interest - av.total_interest) }

/-- `ProjectionResult` (simulator.py lines 18-29). -/
structure ProjectionResult where
  years : List ℕ
  median : List ℚ
  p10 : List ℚ
  p25 : List ℚ
  p75 : List ℚ
  p90 : List ℚ
  success_rate : ℚ
  median_final : ℚ
  target : ℚ
deriving DecidableEq

/-- Ascending sort, as `numpy` sorts data before percentile interpolation. -/
def npSort (xs : List ℚ) : List ℚ := List.insertionSort (· ≤ ·) xs

/-- Linear interpolation into a sorted list at the virtual index `h`
(the default `np.percentile` method): with `i = ⌊h⌋`, the value is
`s[i] + (h - i) * (s[min(i+1, n-1)] - s[i])`. -/
def interpAt (s : List ℚ) (h : ℚ) : ℚ :=
  let i := (⌊h⌋).toNat
  let lo := s.getD i 0
  let hi := s.getD (min (i + 1) (s.length - 1)) 0
  lo + (h - (⌊h⌋ : ℤ)) * (hi - lo)

/-- `np.percentile(xs, q)` with the default linear-interpolation method. -/
def npPercentile (xs : List ℚ) (q : ℚ) : ℚ :=
  interpAt (npSort xs) (q / 100 * ((xs.length : ℚ) - 1))

/-- `np.median(xs)`: the middle of the sorted data, or the mean of the two
middles for an even count. -/
def npMedian (xs : List ℚ) : ℚ :=
  let s := npSort xs
  let n := s.length
  if n % 2 = 1 then s.getD (n / 2) 0
  else (s.getD (n / 2 - 1) 0 + s.getD (n / 2) 0) / 2

/-- Nominal balance path (simulator.py lines 57-66). `draws sim m` is the
monthly return drawn for path `sim` at month `m`, abstracting the
`np.random.normal(monthly_mean, monthly_std)` sampling (and with it the
risk-profile lookup, which only parameterizes that sampling); the
contribution grows once per completed year. -/
def nominalPath (draws : ℕ → ℕ → ℚ)
    (current_balance monthly_contribution contribution_growth : ℚ) :
    ℕ → ℕ → ℚ
  | _, 0 => current_balance
  | sim, m + 1 =>
    nominalPath draws current_balance monthly_contribution contribution_growth
        sim m * (1 + draws sim (m + 1)) +
      monthly_contribution * (1 + contribution_growth) ^ (m / 12)

/-- Real (inflation-adjusted) path (simulator.py lines 68-70).
`monthly_inflation` models `(1+inflation)^(1/12) - 1`, an irrational
quantity in general, abstracted as a parameter. -/
def realPath (draws : ℕ → ℕ → ℚ)
    (current_balance monthly_contribution contribution_growth
      monthly_inflation : ℚ) (sim m : ℕ) : ℚ :=
  nominalPath draws current_balance monthly_contribution contribution_growth
    sim m / (1 + monthly_inflation) ^ m

/-- The cross-path sample of real balances at yearly index `i`
(column `i` of `yearly_values`, simulator.py lines 72-74). -/
def yearColumn (draws : ℕ → ℕ → ℚ)
    (current_balance monthly_contribution contribution_growth
      monthly_inflation : ℚ) (n_simulations i : ℕ) : List ℚ :=
  (List.range n_simulations).map fun s =>
    realPath draws current_balance monthly_contribution contribution_growth
      monthly_inflation s (12 * i)

/-- `run_projection` (simulator.py lines 41-95) for at least one simulated
path: percentile bands over the yearly samples, success rate against the
target, all rounded as in the source. The final values
`real_paths[:, -1]` are the year-`years` column. -/
def runProjection (draws : ℕ → ℕ → ℚ)
    (current_balance monthly_contribution : ℚ) (years : ℕ)
    (monthly_inflation target : ℚ) (n_simulations : ℕ)
    (contribution_growth : ℚ) : ProjectionResult :=
  let col := fun i =>
    yearColumn draws current_balance monthly_contribution contribution_growth
      monthly_inflation n_simulations i
  let finals := col years
  let hits := (finals.filter fun v => decide (target ≤ v)).length
  { years := List.range (years + 1)
    median := (List.range (years + 1)).map fun i => round2 (npMedian (col i))
    p10 := (List.range (years + 1)).map fun i =>
      round2 (npPercentile (col i) 10)
    p25 := (List.range (years + 1)).map fun i =>
      round2 (npPercentile (col i) 25)
    p75 := (List.range (years + 1)).map fun i =>
      round2 (npPercentile (col i) 75)
    p90 := (List.range (years + 1)).map fun i =>
      round2 (npPercentile (col i) 90)
    success_rate :=
      if 0 < target then round1 ((hits : ℚ) / (n_simulations : ℚ) * 100)
      else 100
    median_final := round2 (npMedian finals)
    target := target }

/-- The `project` contract as observed by callers: the function performs no
input validation whatsoever; its only failure mode is `numpy` raising on an
empty simulation axis when `n_simulations = 0` (during aggregation, after
the simulation loop), modelled as `none`. -/
def project (draws : ℕ → ℕ → ℚ) (current_balance monthly_contribution : ℚ)
    (years : ℕ) (monthly_inflation target : ℚ) (n_simulations : ℕ)
    (contribution_growth : ℚ) : Option ProjectionResult :=
  if n_simulations = 0 then none
  else
    some (runProjection draws current_balance monthly_contribution years
      monthly_inflation target n_simulations contribution_growth)

/-- Reading the four consumed fields of the (dict at address `i` of the
store): models `d["name"], d["balance"], d["rate"], d["min_payment"]` in the
copy loop (simulator.py lines 109-118). -/
def readInput (store : List DebtState) (i : ℕ) : DebtInput :=
  let d := store.getD i default
  { name := d.name, balance := d.balance, rate := d.rate,
    min_payment := d.min_payment }

/-- The final contents of the freshly allocated working dicts of one
`simulate_debt_payoff` run. -/
def finalActive (debts : List DebtInput) (extra : ℚ) (strategy : String) :
    List DebtState :=
  if debts.isEmpty then []
  else
    (simLoop (strategy == "avalanche") extra 600
      { active := debts.map initDebt, total_interest := 0, total_paid := 0,
        months := 0 }).active

/-- Store-level model of `simulate_debt_payoff` for the aliasing claim: the
store is a heap of Python debt dicts addressed by index. The function reads
the four input fields at the argument addresses, allocates fresh dicts for
its `active` list (the copy loop, simulator.py lines 107-118) — modelled by
appending the final mutated contents of those fresh dicts at fresh
addresses — and never writes to any pre-existing address; the result is
that of the pure simulation on the values read. -/
def simulateDebtPayoffStore (store : List DebtState) (ids : List ℕ)
    (extra : ℚ) (strategy : String) : List DebtState × DebtPayoffResult :=
  let inputs := ids.map (readInput store)
  (store ++ finalActive inputs extra strategy,
    simulateDebtPayoff inputs extra strategy)

theorem stepMonth_months (b : Bool) (e : ℚ) (s : SimState) :
    (stepMonth b e s).months = s.months + 1 := rfl

theorem simLoop_months_le (b : Bool) (e : ℚ) :
    ∀ (fuel : ℕ) (s : SimState), (simLoop b e fuel s).months ≤ s.months + fuel
  | 0, s => Nat.le_add_right _ _
  | fuel + 1, s => by
    rw [simLoop]
    split
    · have h := simLoop_months_le b e fuel (stepMonth b e s)
      rw [stepMonth_months] at h
      omega
    · omega

theorem simLoop_stop (b : Bool) (e : ℚ) :
    ∀ (fuel : ℕ) (s : SimState), s.months + fuel = 600 →
      anyOverEps (simLoop b e fuel s).active = false ∨
        (simLoop b e fuel s).months = 600
  | 0, s, h => Or.inr (by simpa using h)
  | fuel + 1, s, h => by
    rw [simLoop]
    split
    · exact simLoop_stop b e fuel _ (by rw [stepMonth_months]; omega)
    · rename_i hg
      rw [Bool.and_eq_true, not_and_or] at hg
      rcases hg with h1 | h2
      · simp only [Bool.not_eq_true] at h1
        exact Or.inl h1
      · simp only [decide_eq_true_eq] at h2
        omega

/-- C7: for every debt list, extra payment and strategy, the payoff loop
terminates: the run stops once every balance is at most the 0.01 epsilon or
at the 600-month cap, whichever comes first, and the returned
`months_to_free` never exceeds 600. -/
theorem payoff_terminates_within_600 (debts : List DebtInput) (e : ℚ)
    (st : String) :
    (simulateDebtPayoff debts e st).months_to_free ≤ 600 ∧
      (anyOverEps (finalActive debts e st) = false ∨
        (simulateDebtPayoff debts e st).months_to_free = 600) := by
  by_cases hemp : debts.isEmpty
  · simp [simulateDebtPayoff, finalActive, hemp, anyOverEps]
  · simp only [simulateDebtPayoff, finalActive, hemp, if_false,
      Bool.false_eq_true]
    constructor
    · simpa using simLoop_months_le (st == "avalanche") e 600
        ⟨debts.map initDebt, 0, 0, 0⟩
    · simpa using simLoop_stop (st == "avalanche") e 600
        ⟨debts.map initDebt, 0, 0, 0⟩ rfl

/-- Upper bound on the recorded month stamps of the working debts. -/
def MonthsLe (n : ℕ) (l : List DebtState) : Prop := ∀ d ∈ l, d.months ≤ n

theorem accrueDebt_months (d : DebtState) : (accrueDebt d).1.months = d.months := by
  unfold accrueDebt; split <;> rfl

theorem payMinDebt_months (d : DebtState) : (payMinDebt d).1.months = d.months := by
  unfold payMinDebt; split <;> rfl

theorem monthsLe_accrue {n : ℕ} {l : List DebtState} (h : MonthsLe n l) :
    MonthsLe n (accrue l).1 := by
  intro d hd
  rcases List.mem_map.mp hd with ⟨d0, hd0, rfl⟩
  rw [accrueDebt_months]
  exact h d0 hd0

theorem monthsLe_payMins {n : ℕ} {l : List DebtState} (h : MonthsLe n l) :
    MonthsLe n (payMins l).1 := by
  intro d hd
  rcases List.mem_map.mp hd with ⟨d0, hd0, rfl⟩
  rw [payMinDebt_months]
  exact h d0 hd0

theorem monthsLe_applyExtraStep {n : ℕ} {st : List DebtState × ℚ} {i : ℕ}
    (h : MonthsLe n st.1) : MonthsLe n (applyExtraStep st i).1 := by
  unfold applyExtraStep
  dsimp only
  split
  · rename_i hp
    by_cases hi : i < st.1.length
    · intro d hd
      rcases List.mem_or_eq_of_mem_set hd with hd | rfl
      · exact h d hd
      · show (st.1.getD i default).months ≤ n
        rw [List.getD_eq_getElem st.1 default hi]
        exact h _ (List.getElem_mem hi)
    · rw [List.getD_eq_default st.1 default (Nat.le_of_not_lt hi)] at hp
      exact absurd hp.1 (lt_irrefl _)
  · exact h

theorem monthsLe_foldlExtra {n : ℕ} (order : List ℕ) :
    ∀ (st : List DebtState × ℚ), MonthsLe n st.1 →
      MonthsLe n (order.foldl applyExtraStep st).1 := by
  induction order with
  | nil => exact fun st h => h
  | cons i rest ih =>
    exact fun st h => ih (applyExtraStep st i) (monthsLe_applyExtraStep h)

theorem monthsLe_applyExtra {n : ℕ} (order : List ℕ) {l : List DebtState}
    {e : ℚ} (h : MonthsLe n l) : MonthsLe n (applyExtra l e order).1 :=
  monthsLe_foldlExtra order (l, e) h

theorem monthsLe_setMonths {n m : ℕ} {l : List DebtState} (h : MonthsLe n l)
    (hnm : n ≤ m) : MonthsLe m (setMonths m l) := by
  intro d hd
  rcases List.mem_map.mp hd with ⟨d0, hd0, rfl⟩
  split
  · exact le_refl m
  · exact le_trans (h d0 hd0) hnm

theorem monthsLe_stepMonth {b : Bool} {e : ℚ} {s : SimState}
    (h : MonthsLe s.months s.active) :
    MonthsLe (stepMonth b e s).months (stepMonth b e s).active := by
  rw [stepMonth_months]
  exact monthsLe_setMonths
    (monthsLe_applyExtra _ (monthsLe_payMins (monthsLe_accrue h)))
    (Nat.le_succ _)

theorem monthsLe_simLoop (b : Bool) (e : ℚ) :
    ∀ (fuel : ℕ) (s : SimState), MonthsLe s.months s.active →
      MonthsLe (simLoop b e fuel s).months (simLoop b e fuel s).active
  | 0, s, h => h
  | fuel + 1, s, h => by
    rw [simLoop]
    split
    · exact monthsLe_simLoop b e fuel _ (monthsLe_stepMonth h)
    · exact h

theorem foldr_max_le {l : List ℕ} {n : ℕ} (h : ∀ x ∈ l, x ≤ n) :
    l.foldr max 0 ≤ n := by
  induction l with
  | nil => exact Nat.zero_le n
  | cons a t ih =>
    exact max_le (h a (List.mem_cons_self a t))
      (ih fun x hx => h x (List.mem_cons_of_mem a hx))

/-- C1 (amended): the maximum of the per-debt `months_to_payoff` entries is
at most `months_to_free` (a debt's stamp is the last month at which it
still owed after the payments, so it can lag the final month count by one),
and an empty debt list yields `months_to_free = 0`. -/
theorem months_to_free_bounds_per_debt (debts : List DebtInput) (e : ℚ)
    (st : String) :
    ((simulateDebtPayoff debts e st).debts.map
        PerDebtResult.months_to_payoff).foldr max 0
      ≤ (simulateDebtPayoff debts e st).months_to_free ∧
    (simulateDebtPayoff [] e st).months_to_free = 0 := by
  refine ⟨?_, rfl⟩
  by_cases hemp : debts.isEmpty
  · simp [simulateDebtPayoff, hemp]
  · simp only [simulateDebtPayoff, hemp, if_false, Bool.false_eq_true]
    have h0 : MonthsLe (0 : ℕ)
        (SimState.mk (debts.map initDebt) 0 0 0).active := by
      intro d hd
      rcases List.mem_map.mp hd with ⟨d0, _, rfl⟩
      exact le_refl 0
    have hf := monthsLe_simLoop (st == "avalanche") e 600
      ⟨debts.map initDebt, 0, 0, 0⟩ h0
    refine foldr_max_le ?_
    intro x hx
    rcases List.mem_map.mp hx with ⟨pd, hpd, rfl⟩
    rcases List.mem_map.mp hpd with ⟨d, hd, rfl⟩
    exact hf d hd

unseal Rat.add Rat.mul Rat.inv Rat.sub in
/-- C1 counterexample: a single riskless debt paid off by its first minimum
payment has `months_to_free = 1` but per-debt `months_to_payoff = 0`, so
`months_to_free` is NOT the maximum of the per-debt entries. -/
theorem months_to_free_ne_max_per_debt :
    (simulateDebtPayoff [⟨"a", 100, 0, 100⟩] 0 "avalanche").months_to_free ≠
      ((simulateDebtPayoff [⟨"a", 100, 0, 100⟩] 0 "avalanche").debts.map
        PerDebtResult.months_to_payoff).foldr max 0 := by decide

/-- C9: any strategy string other than `"avalanche"` falls into the `else`
branch, so it behaves exactly like `"snowball"` (the ascending-balance,
zero-balances-last ordering) while the result's `strategy` field echoes the
given string verbatim. -/
theorem payoff_default_strategy_is_snowball (debts : List DebtInput) (e : ℚ)
    (st : String) (h : st ≠ "avalanche") :
    (simulateDebtPayoff debts e st).strategy = st ∧
      simulateDebtPayoff debts e st
        = { simulateDebtPayoff debts e "snowball" with strategy := st } := by
  constructor
  · unfold simulateDebtPayoff
    split <;> rfl
  · unfold simulateDebtPayoff
    rw [beq_eq_false_iff_ne.mpr h,
      show (("snowball" : String) == "avalanche") = false from rfl]
    by_cases hemp : debts.isEmpty <;> simp [hemp]

theorem payoff_default_strategy_is_snowball_witness :
    (simulateDebtPayoff [⟨"a", 60, 12, 30⟩] 7 "consolidate").strategy
        = "consolidate" ∧
      simulateDebtPayoff [⟨"a", 60, 12, 30⟩] 7 "consolidate"
        = { simulateDebtPayoff [⟨"a", 60, 12, 30⟩] 7 "snowball" with
            strategy := "consolidate" } :=
  payoff_default_strategy_is_snowball _ _ _ (by decide)

theorem applyExtra_nonpos (order : List ℕ) :
    ∀ (st : List DebtState × ℚ), st.2 ≤ 0 →
      order.foldl applyExtraStep st = st := by
  induction order with
  | nil => exact fun st _ => rfl
  | cons i rest ih =>
    intro st hst
    have hstep : applyExtraStep st i = st := by
      unfold applyExtraStep
      dsimp only
      rw [if_neg]
      rintro ⟨-, h2⟩
      exact absurd h2 (not_lt.mpr hst)
    rw [List.foldl_cons, hstep]
    exact ih st hst

theorem stepMonth_nonpos_extra (b : Bool) {e : ℚ} (he : e ≤ 0)
    (s : SimState) : stepMonth b e s = stepMonth b 0 s := by
  unfold stepMonth applyExtra
  dsimp only
  rw [applyExtra_nonpos _ _ he, applyExtra_nonpos _ _ (le_refl (0 : ℚ))]
  simp

theorem simLoop_nonpos_extra (b : Bool) {e : ℚ} (he : e ≤ 0) :
    ∀ (fuel : ℕ) (s : SimState), simLoop b e fuel s = simLoop b 0 fuel s
  | 0, _ => rfl
  | fuel + 1, s => by
    rw [simLoop, simLoop, stepMonth_nonpos_extra b he s]
    by_cases hg : (anyOverEps s.active && decide (s.months < 600)) = true
    · rw [if_pos hg, if_pos hg]
      exact simLoop_nonpos_extra b he fuel _
    · rw [if_neg hg, if_neg hg]

theorem simulateDebtPayoff_nonpos_extra (debts : List DebtInput) {e : ℚ}
    (he : e ≤ 0) (st : String) :
    simulateDebtPayoff debts e st = simulateDebtPayoff debts 0 st := by
  unfold simulateDebtPayoff
  dsimp only
  rw [simLoop_nonpos_extra _ he]

/-- C8: `project_profile` runs both debt strategies with the same
`extra_monthly = max(0, surplus * 0.3)` where `surplus` is monthly income
minus monthly expenses; since a non-positive extra payment is never applied
by the loop, each run behaves exactly as a run with extra
`surplus * 0.3` itself, including when the surplus is negative. -/
theorem project_profile_extra_is_30pct_surplus (income expenses : ℚ)
    (debts : List DebtInput) :
    (projectProfileDebt income expenses debts).avalanche
        = simulateDebtPayoff debts ((income - expenses) * (3 / 10))
            "avalanche" ∧
      (projectProfileDebt income expenses debts).snowball
        = simulateDebtPayoff debts ((income - expenses) * (3 / 10))
            "snowball" := by
  unfold projectProfileDebt
  dsimp only
  rcases le_or_lt ((income - expenses) * (3 / 10)) 0 with h | h
  · rw [max_eq_left h]
    exact ⟨(simulateDebtPayoff_nonpos_extra debts h "avalanche").symm,
      (simulateDebtPayoff_nonpos_extra debts h "snowball").symm⟩
  · rw [max_eq_right (le_of_lt h)]
    exact ⟨rfl, rfl⟩

unseal Rat.add Rat.mul Rat.inv Rat.sub in
/-- C2 counterexample: for the debts `[{balance 100, rate 20, min 50},
{balance 50, rate 20, min 0}]` and extra payment 50 the avalanche run
accrues MORE total interest than the snowball run (paying off a debt early
forfeits its minimum-payment capacity, which this simulation does not
redirect), and `project_profile` accordingly reports a negative
`savings_vs_snowball` for a profile whose surplus yields that extra. -/
theorem avalanche_interest_exceeds_snowball :
    (simulateDebtPayoff [⟨"d0", 100, 20, 50⟩, ⟨"d1", 50, 20, 0⟩] 50
        "snowball").total_interest
      < (simulateDebtPayoff [⟨"d0", 100, 20, 50⟩, ⟨"d1", 50, 20, 0⟩] 50
        "avalanche").total_interest ∧
    (projectProfileDebt (500 / 3) 0
        [⟨"d0", 100, 20, 50⟩, ⟨"d1", 50, 20, 0⟩]).savings_vs_snowball
      < 0 := by decide

theorem applyExtraStep_length (st : List DebtState × ℚ) (i : ℕ) :
    (applyExtraStep st i).1.length = st.1.length := by
  unfold applyExtraStep
  dsimp only
  split
  · exact st.1.length_set i _
  · rfl

theorem foldlExtra_length (order : List ℕ) :
    ∀ (st : List DebtState × ℚ),
      (order.foldl applyExtraStep st).1.length = st.1.length := by
  induction order with
  | nil => exact fun _ => rfl
  | cons i rest ih =>
    intro st
    rw [List.foldl_cons, ih (applyExtraStep st i), applyExtraStep_length]

theorem stepMonth_active_length (b : Bool) (e : ℚ) (s : SimState) :
    (stepMonth b e s).active.length = s.active.length := by
  unfold stepMonth setMonths applyExtra payMins accrue
  dsimp only
  rw [List.length_map, foldlExtra_length]
  exact List.length_map _ _ |>.trans (List.length_map _ _)

theorem insertionSortBy_short (le : ℕ → ℕ → Bool) {n : ℕ} (h : n ≤ 1) :
    insertionSortBy le (List.range n) = List.range n := by
  interval_cases n <;> rfl

theorem sortOrder_of_length_le_one (b1 b2 : Bool) {l : List DebtState}
    (h : l.length ≤ 1) : sortOrder b1 l = sortOrder b2 l := by
  unfold sortOrder
  cases b1 <;> cases b2 <;>
    simp [insertionSortBy_short _ h]

theorem stepMonth_of_length_le_one (b1 b2 : Bool) (e : ℚ) {s : SimState}
    (h : s.active.length ≤ 1) : stepMonth b1 e s = stepMonth b2 e s := by
  unfold stepMonth
  dsimp only
  rw [sortOrder_of_length_le_one b1 b2
    (by rw [show (accrue s.active).1.length = s.active.length from
      List.length_map _ _]; exact h)]

theorem simLoop_of_length_le_one (b1 b2 : Bool) (e : ℚ) :
    ∀ (fuel : ℕ) (s : SimState), s.active.length ≤ 1 →
      simLoop b1 e fuel s = simLoop b2 e fuel s
  | 0, _, _ => rfl
  | fuel + 1, s, h => by
    rw [simLoop, simLoop, stepMonth_of_length_le_one b1 b2 e h]
    by_cases hg : (anyOverEps s.active && decide (s.months < 600)) = true
    · rw [if_pos hg, if_pos hg]
      exact simLoop_of_length_le_one b1 b2 e fuel _
        (by rw [stepMonth_active_length]; exact h)
    · rw [if_neg hg, if_neg hg]

/-- C2 (amended): avalanche does NOT always minimize total interest under
this repayment policy (minimum payments freed by an early payoff are not
redirected, see the counterexample), so the reported snowball-minus-
avalanche difference can be negative; what does hold is that for a
single-debt list the two strategies coincide, giving equal
`total_interest` and equal `months_to_free`. -/
theorem single_debt_avalanche_eq_snowball (d : DebtInput) (e : ℚ) :
    (simulateDebtPayoff [d] e "avalanche").total_interest
        = (simulateDebtPayoff [d] e "snowball").total_interest ∧
      (simulateDebtPayoff [d] e "avalanche").months_to_free
        = (simulateDebtPayoff [d] e "snowball").months_to_free := by
  unfold simulateDebtPayoff
  rw [show (("avalanche" : String) == "avalanche") = true from rfl,
    show (("snowball" : String) == "avalanche") = false from rfl]
  dsimp only
  rw [simLoop_of_length_le_one true false e 600
      ⟨[d].map initDebt, 0, 0, 0⟩ (by simp)]
  exact ⟨rfl, rfl⟩

/-- C10: over the store model, `simulate_debt_payoff` leaves every
pre-existing address untouched (the copy loop allocates fresh dicts and the
simulation mutates only those), so the input debts keep their name,
balance, rate and minimum payment; consequently running avalanche and then
snowball over the same addresses gives the snowball run the original
balances and its result equals that of a direct snowball run. -/
theorem payoff_leaves_inputs_unchanged (store : List DebtState)
    (ids : List ℕ) (e : ℚ) (st : String)
    (hids : ∀ i ∈ ids, i < store.length) :
    (∀ i, i < store.length →
      (simulateDebtPayoffStore store ids e st).1.getD i default
        = store.getD i default) ∧
    (simulateDebtPayoffStore
        (simulateDebtPayoffStore store ids e "avalanche").1 ids e
        "snowball").2
      = (simulateDebtPayoffStore store ids e "snowball").2 := by
  constructor
  · intro i hi
    exact List.getD_append store _ default i hi
  · show simulateDebtPayoff
        (ids.map (readInput (store ++ finalActive
          (ids.map (readInput store)) e "avalanche"))) e "snowball"
      = simulateDebtPayoff (ids.map (readInput store)) e "snowball"
    congr 1
    apply List.map_congr_left
    intro i hi
    unfold readInput
    rw [List.getD_append store _ default i (hids i hi)]

theorem payoff_leaves_inputs_unchanged_witness :
    ((simulateDebtPayoffStore [⟨"a", 80, 10, 40, 0, 0, 80⟩] [0] 5
        "avalanche").1.getD 0 default
      = ([⟨"a", 80, 10, 40, 0, 0, 80⟩] : List DebtState).getD 0 default) ∧
    (simulateDebtPayoffStore
        (simulateDebtPayoffStore [⟨"a", 80, 10, 40, 0, 0, 80⟩] [0] 5
          "avalanche").1 [0] 5 "snowball").2
      = (simulateDebtPayoffStore [⟨"a", 80, 10, 40, 0, 0, 80⟩] [0] 5
          "snowball").2 := by
  have h := payoff_leaves_inputs_unchanged [⟨"a", 80, 10, 40, 0, 0, 80⟩]
    [0] 5 "avalanche" (by simp)
  exact ⟨h.1 0 (by simp), (payoff_leaves_inputs_unchanged
    [⟨"a", 80, 10, 40, 0, 0, 80⟩] [0] 5 "avalanche" (by simp)).2⟩

/-- C4 (amended): the engine performs no fail-fast input validation:
`run_projection` accepts any numeric arguments (negative balances
included) and produces a normal result whenever at least one path is
simulated; the only failure is `numpy` raising during percentile
aggregation (after the simulation work) when `simulationCount = 0` — never
a descriptive pre-validation error — and arguments are never clamped. -/
theorem projection_has_no_input_validation (draws : ℕ → ℕ → ℚ)
    (cb mc minf target g : ℚ) (years n : ℕ) :
    (project draws cb mc years minf target n g).isSome ↔ n ≠ 0 := by
  unfold project
  by_cases h : n = 0 <;> simp [h]

/-- C4 counterexample: a negative `currentBalance` is not rejected — the
projection runs to completion and returns an ordinary result instead of
failing fast with a descriptive error. -/
theorem projection_accepts_negative_balance :
    project (fun _ _ => 0) (-100) 0 1 0 0 5 0
      = some (runProjection (fun _ _ => 0) (-100) 0 1 0 0 5 0) := rfl

theorem npSort_perm (xs : List ℚ) : (npSort xs).Perm xs :=
  List.perm_insertionSort _ xs

theorem npSort_length (xs : List ℚ) : (npSort xs).length = xs.length :=
  (npSort_perm xs).length_eq

theorem mem_npSort {xs : List ℚ} {x : ℚ} (hx : x ∈ npSort xs) : x ∈ xs :=
  (npSort_perm xs).mem_iff.mp hx

theorem getD_of_all_eq {l : List ℚ} {c : ℚ} (h : ∀ x ∈ l, x = c) {i : ℕ}
    (hi : i < l.length) : l.getD i 0 = c := by
  rw [List.getD_eq_getElem _ _ hi]
  exact h _ (List.getElem_mem hi)

theorem interpAt_const {s : List ℚ} {c : ℚ} (h : ∀ x ∈ s, x = c)
    (hn : 1 ≤ s.length) {hq : ℚ} (h0 : 0 ≤ hq)
    (h1 : hq ≤ (s.length : ℚ) - 1) : interpAt s hq = c := by
  unfold interpAt
  dsimp only
  have hfl0 : (0 : ℤ) ≤ ⌊hq⌋ := Int.floor_nonneg.mpr h0
  have hfl1 : ⌊hq⌋ ≤ (s.length : ℤ) - 1 := by
    have h2 : ⌊hq⌋ ≤ ⌊(s.length : ℚ) - 1⌋ := Int.floor_le_floor h1
    rwa [show (s.length : ℚ) - 1 = (((s.length : ℤ) - 1 : ℤ) : ℚ) by
      push_cast; ring, Int.floor_intCast] at h2
  have hidx : (⌊hq⌋).toNat < s.length := by omega
  have hidx2 : min ((⌊hq⌋).toNat + 1) (s.length - 1) < s.length := by omega
  rw [getD_of_all_eq h hidx, getD_of_all_eq h hidx2]
  ring

theorem npPercentile_const {xs : List ℚ} {c : ℚ} (h : ∀ x ∈ xs, x = c)
    (hn : 1 ≤ xs.length) {q : ℚ} (h0 : 0 ≤ q) (h100 : q ≤ 100) :
    npPercentile xs q = c := by
  unfold npPercentile
  have hlen : (1 : ℚ) ≤ (xs.length : ℚ) := by exact_mod_cast hn
  apply interpAt_const (fun x hx => h x (mem_npSort hx))
    (by rwa [npSort_length])
  · exact mul_nonneg (div_nonneg h0 (by norm_num)) (by linarith)
  · rw [npSort_length]
    calc q / 100 * ((xs.length : ℚ) - 1)
        ≤ 1 * ((xs.length : ℚ) - 1) := by
          apply mul_le_mul_of_nonneg_right _ (by linarith)
          rw [div_le_one (by norm_num : (0:ℚ) < 100)]
          exact h100
      _ = (xs.length : ℚ) - 1 := one_mul _

theorem npMedian_const {xs : List ℚ} {c : ℚ} (h : ∀ x ∈ xs, x = c)
    (hn : 1 ≤ xs.length) : npMedian xs = c := by
  unfold npMedian
  dsimp only
  have hs : ∀ x ∈ npSort xs, x = c := fun x hx => h x (mem_npSort hx)
  have hlen : 1 ≤ (npSort xs).length := by rwa [npSort_length]
  split
  · exact getD_of_all_eq hs (by omega)
  · rw [getD_of_all_eq hs (by omega), getD_of_all_eq hs (by omega)]
    ring

theorem filter_length_of_all_eq {l : List ℚ} {c : ℚ} (h : ∀ x ∈ l, x = c)
    (p : ℚ → Bool) :
    (l.filter p).length = if p c then l.length else 0 := by
  induction l with
  | nil => simp
  | cons a t ih =>
    have ha : a = c := h a (List.mem_cons_self a t)
    have ht := ih fun x hx => h x (List.mem_cons_of_mem a hx)
    by_cases hp : p c
    · subst ha
      simp [List.filter_cons, hp, ht]
    · subst ha
      simp [List.filter_cons, Bool.of_not_eq_true hp, ht, hp]

theorem round1_hundred : round1 100 = 100 := by
  unfold round1
  rw [show (10 : ℚ) * 100 = ((1000 : ℤ) : ℚ) by norm_num, round_intCast]
  norm_num

theorem round1_zero : round1 0 = 0 := by
  unfold round1
  rw [show (10 : ℚ) * 0 = ((0 : ℤ) : ℚ) by norm_num, round_intCast]
  norm_num

theorem yearColumn_zero_all_eq (draws : ℕ → ℕ → ℚ) (cb mc g minf : ℚ)
    (n : ℕ) :
    ∀ x ∈ yearColumn draws cb mc g minf n 0, x = cb := by
  intro x hx
  rcases List.mem_map.mp hx with ⟨s, _, rfl⟩
  show nominalPath draws cb mc g s (12 * 0) / (1 + minf) ^ (12 * 0) = cb
  norm_num [nominalPath]

theorem yearColumn_length (draws : ℕ → ℕ → ℚ) (cb mc g minf : ℚ)
    (n i : ℕ) : (yearColumn draws cb mc g minf n i).length = n := by
  unfold yearColumn
  rw [List.length_map, List.length_range]

/-- C6 (amended): with `years = 0` the projection returns single-point
sequences whose value is `currentBalance` rounded to two decimals (the
step-0 deflation factor is 1, but the 2-decimal output rounding still
applies, so the value equals `currentBalance` itself exactly when the
balance has at most two decimals, not in general); `successRate` is 100
when no positive target is set, else 100 or 0 according to whether the
balance meets the target. -/
theorem projection_zero_years (draws : ℕ → ℕ → ℚ) (cb mc minf target g : ℚ)
    (n : ℕ) (hn : 1 ≤ n) :
    (runProjection draws cb mc 0 minf target n g).years = [0] ∧
    (runProjection draws cb mc 0 minf target n g).median = [round2 cb] ∧
    (runProjection draws cb mc 0 minf target n g).p10 = [round2 cb] ∧
    (runProjection draws cb mc 0 minf target n g).p25 = [round2 cb] ∧
    (runProjection draws cb mc 0 minf target n g).p75 = [round2 cb] ∧
    (runProjection draws cb mc 0 minf target n g).p90 = [round2 cb] ∧
    (runProjection draws cb mc 0 minf target n g).median_final
      = round2 cb ∧
    (runProjection draws cb mc 0 minf target n g).success_rate
      = (if 0 < target then (if target ≤ cb then (100 : ℚ) else 0)
          else 100) := by
  have hall := yearColumn_zero_all_eq draws cb mc g minf n
  have hlen : 1 ≤ (yearColumn draws cb mc g minf n 0).length := by
    rwa [yearColumn_length]
  have hmed := npMedian_const hall hlen
  have hp : ∀ q : ℚ, 0 ≤ q → q ≤ 100 →
      npPercentile (yearColumn draws cb mc g minf n 0) q = cb :=
    fun q h0 h100 => npPercentile_const hall hlen h0 h100
  unfold runProjection
  dsimp only
  rw [show List.range (0 + 1) = [0] from rfl]
  refine ⟨rfl, ?_, ?_, ?_, ?_, ?_, ?_, ?_⟩
  · rw [List.map_cons, List.map_nil, hmed]
  · rw [List.map_cons, List.map_nil, hp 10 (by norm_num) (by norm_num)]
  · rw [List.map_cons, List.map_nil, hp 25 (by norm_num) (by norm_num)]
  · rw [List.map_cons, List.map_nil, hp 75 (by norm_num) (by norm_num)]
  · rw [List.map_cons, List.map_nil, hp 90 (by norm_num) (by norm_num)]
  · rw [hmed]
  · rw [filter_length_of_all_eq hall, yearColumn_length]
    by_cases htgt : 0 < target
    · rw [if_pos htgt, if_pos htgt]
      by_cases hcb : target ≤ cb
      · rw [if_pos hcb, if_pos (decide_eq_true hcb)]
        rw [div_self (by positivity : ((n : ℚ)) ≠ 0)]
        · rw [one_mul, round1_hundred]
      · rw [if_neg hcb, if_neg (by simpa using hcb)]
        norm_num [round1_zero]
    · rw [if_neg htgt, if_neg htgt]

theorem projection_zero_years_witness :
    (runProjection (fun _ _ => 0) 5 2 0 0 3 1 0).years = [0] ∧
    (runProjection (fun _ _ => 0) 5 2 0 0 3 1 0).median = [round2 5] ∧
    (runProjection (fun _ _ => 0) 5 2 0 0 3 1 0).p10 = [round2 5] ∧
    (runProjection (fun _ _ => 0) 5 2 0 0 3 1 0).p25 = [round2 5] ∧
    (runProjection (fun _ _ => 0) 5 2 0 0 3 1 0).p75 = [round2 5] ∧
    (runProjection (fun _ _ => 0) 5 2 0 0 3 1 0).p90 = [round2 5] ∧
    (runProjection (fun _ _ => 0) 5 2 0 0 3 1 0).median_final
      = round2 5 ∧
    (runProjection (fun _ _ => 0) 5 2 0 0 3 1 0).success_rate
      = (if 0 < (3 : ℚ) then (if (3 : ℚ) ≤ 5 then (100 : ℚ) else 0)
          else 100) :=
  projection_zero_years (fun _ _ => 0) 5 2 0 3 0 1 (by decide)

unseal Rat.add Rat.mul Rat.inv Rat.sub in
/-- C6 counterexample: with `years = 0` and `currentBalance = 0.001` the
returned single-point value is `round(0.001, 2) = 0`, not the balance
itself, so the result does not equal `currentBalance` unchanged. -/
theorem projection_zero_years_rounds :
    (runProjection (fun _ _ => 0) (1 / 1000) 0 0 0 0 1 0).median
      ≠ [1 / 1000] := by decide

theorem npSort_sorted (xs : List ℚ) : (npSort xs).Sorted (· ≤ ·) :=
  List.sorted_insertionSort _ xs

theorem sorted_getD_mono {s : List ℚ} (hs : s.Sorted (· ≤ ·)) {i j : ℕ}
    (hij : i ≤ j) (hj : j < s.length) : s.getD i 0 ≤ s.getD j 0 := by
  have hi : i < s.length := lt_of_le_of_lt hij hj
  rw [List.getD_eq_get _ _ hi, List.getD_eq_get _ _ hj]
  rcases Nat.eq_or_lt_of_le hij with heq | hlt
  · subst heq
    exact le_refl _
  · exact hs.rel_get_of_lt hlt

theorem interpAt_mono {s : List ℚ} (hs : s.Sorted (· ≤ ·))
    (hn : 1 ≤ s.length) {h1 h2 : ℚ} (h0 : 0 ≤ h1) (h12 : h1 ≤ h2)
    (htop : h2 ≤ (s.length : ℚ) - 1) : interpAt s h1 ≤ interpAt s h2 := by
  have hf10 : (0 : ℤ) ≤ ⌊h1⌋ := Int.floor_nonneg.mpr h0
  have hf20 : (0 : ℤ) ≤ ⌊h2⌋ := Int.floor_nonneg.mpr (le_trans h0 h12)
  have hfle : ⌊h1⌋ ≤ ⌊h2⌋ := Int.floor_mono h12
  have hf2top : ⌊h2⌋ ≤ (s.length : ℤ) - 1 := by
    have h' := Int.floor_mono htop
    rwa [show (s.length : ℚ) - 1 = (((s.length : ℤ) - 1 : ℤ) : ℚ) by
      push_cast; ring, Int.floor_intCast] at h'
  have e1 : ((⌊h1⌋.toNat : ℤ)) = ⌊h1⌋ := Int.toNat_of_nonneg hf10
  have e2 : ((⌊h2⌋.toNat : ℤ)) = ⌊h2⌋ := Int.toNat_of_nonneg hf20
  have hi1 : ⌊h1⌋.toNat < s.length := by omega
  have hi2 : ⌊h2⌋.toNat < s.length := by omega
  have hj1 : min (⌊h1⌋.toNat + 1) (s.length - 1) < s.length := by omega
  have hj2 : min (⌊h2⌋.toNat + 1) (s.length - 1) < s.length := by omega
  have hfr1 : 0 ≤ h1 - (⌊h1⌋ : ℚ) := by
    have := Int.floor_le h1
    linarith
  have hfr1' : h1 - (⌊h1⌋ : ℚ) < 1 := by
    have := Int.lt_floor_add_one h1
    push_cast at this
    linarith
  have hfr2 : 0 ≤ h2 - (⌊h2⌋ : ℚ) := by
    have := Int.floor_le h2
    linarith
  unfold interpAt
  dsimp only
  have hd1 : s.getD (⌊h1⌋.toNat) 0
      ≤ s.getD (min (⌊h1⌋.toNat + 1) (s.length - 1)) 0 :=
    sorted_getD_mono hs (by omega) hj1
  have hd2 : s.getD (⌊h2⌋.toNat) 0
      ≤ s.getD (min (⌊h2⌋.toNat + 1) (s.length - 1)) 0 :=
    sorted_getD_mono hs (by omega) hj2
  by_cases heq : ⌊h1⌋ = ⌊h2⌋
  · have hnat : ⌊h1⌋.toNat = ⌊h2⌋.toNat := by rw [heq]
    rw [hnat, heq]
    have hff : h1 - (⌊h2⌋ : ℚ) ≤ h2 - (⌊h2⌋ : ℚ) := by linarith
    have := mul_le_mul_of_nonneg_right hff
      (by rw [← hnat]; rw [hnat]; linarith [hd2] :
        (0 : ℚ) ≤ s.getD (min (⌊h2⌋.toNat + 1) (s.length - 1)) 0
          - s.getD (⌊h2⌋.toNat) 0)
    linarith
  · have hlt : ⌊h1⌋ < ⌊h2⌋ := lt_of_le_of_ne hfle heq
    have hmid : s.getD (min (⌊h1⌋.toNat + 1) (s.length - 1)) 0
        ≤ s.getD (⌊h2⌋.toNat) 0 :=
      sorted_getD_mono hs (by omega) hi2
    have hup : s.getD (⌊h1⌋.toNat) 0
          + (h1 - (⌊h1⌋ : ℚ))
            * (s.getD (min (⌊h1⌋.toNat + 1) (s.length - 1)) 0
              - s.getD (⌊h1⌋.toNat) 0)
        ≤ s.getD (min (⌊h1⌋.toNat + 1) (s.length - 1)) 0 := by
      have := mul_le_mul_of_nonneg_right (le_of_lt hfr1')
        (by linarith :
          (0 : ℚ) ≤ s.getD (min (⌊h1⌋.toNat + 1) (s.length - 1)) 0
            - s.getD (⌊h1⌋.toNat) 0)
      linarith
    have hlow : s.getD (⌊h2⌋.toNat) 0
        ≤ s.getD (⌊h2⌋.toNat) 0
          + (h2 - (⌊h2⌋ : ℚ))
            * (s.getD (min (⌊h2⌋.toNat + 1) (s.length - 1)) 0
              - s.getD (⌊h2⌋.toNat) 0) := by
      have := mul_nonneg hfr2
        (by linarith :
          (0 : ℚ) ≤ s.getD (min (⌊h2⌋.toNat + 1) (s.length - 1)) 0
            - s.getD (⌊h2⌋.toNat) 0)
      linarith
    linarith

theorem npMedian_eq_percentile (xs : List ℚ) (hn : 1 ≤ xs.length) :
    npMedian xs = npPercentile xs 50 := by
  unfold npMedian npPercentile interpAt
  dsimp only
  rw [npSort_length]
  have hq : (50 : ℚ) / 100 * ((xs.length : ℚ) - 1)
      = ((xs.length : ℚ) - 1) / 2 := by ring
  rw [hq]
  rcases Nat.even_or_odd xs.length with he | ho
  · obtain ⟨k, hk⟩ := he
    have hk1 : 1 ≤ k := by omega
    have hcast : ((xs.length : ℚ) - 1) / 2 = (k : ℚ) - 1 / 2 := by
      rw [show (xs.length : ℚ) = ((k : ℚ) + (k : ℚ)) by
        rw [hk]; push_cast; ring]
      ring
    have hfl : ⌊((xs.length : ℚ) - 1) / 2⌋ = (k : ℤ) - 1 := by
      rw [hcast]
      apply Int.floor_eq_iff.mpr
      constructor
      · push_cast
        linarith
      · push_cast
        linarith
    have hpar : ¬ xs.length % 2 = 1 := by omega
    rw [if_neg hpar, hfl]
    have htn : ((k : ℤ) - 1).toNat = k - 1 := by omega
    rw [htn]
    have hmin : min (k - 1 + 1) (xs.length - 1) = k := by omega
    rw [hmin]
    have hidx1 : xs.length / 2 - 1 = k - 1 := by omega
    have hidx2 : xs.length / 2 = k := by omega
    rw [hidx1, hidx2]
    have hfrac : ((xs.length : ℚ) - 1) / 2 - (((k : ℤ) - 1 : ℤ) : ℚ)
        = 1 / 2 := by
      rw [hcast]
      push_cast
      ring
    rw [hfrac]
    ring
  · obtain ⟨k, hk⟩ := ho
    have hcast : ((xs.length : ℚ) - 1) / 2 = (k : ℚ) := by
      rw [show (xs.length : ℚ) = (2 * (k : ℚ) + 1) by
        rw [hk]; push_cast; ring]
      ring
    have hfl : ⌊((xs.length : ℚ) - 1) / 2⌋ = (k : ℤ) := by
      rw [hcast]
      exact_mod_cast Int.floor_intCast (k : ℤ)
    have hpar : xs.length % 2 = 1 := by omega
    rw [if_pos hpar, hfl]
    have htn : ((k : ℤ)).toNat = k := by omega
    rw [htn]
    have hidx : xs.length / 2 = k := by omega
    rw [hidx]
    have hfrac : ((xs.length : ℚ) - 1) / 2 - (((k : ℤ) : ℤ) : ℚ) = 0 := by
      rw [hcast]
      push_cast
      ring
    rw [hfrac]
    ring

theorem npPercentile_mono (xs : List ℚ) (hn : 1 ≤ xs.length) {q1 q2 : ℚ}
    (h0 : 0 ≤ q1) (h12 : q1 ≤ q2) (h100 : q2 ≤ 100) :
    npPercentile xs q1 ≤ npPercentile xs q2 := by
  unfold npPercentile
  have hlen : (1 : ℚ) ≤ (xs.length : ℚ) := by exact_mod_cast hn
  apply interpAt_mono (npSort_sorted xs) (by rwa [npSort_length])
  · exact mul_nonneg (div_nonneg h0 (by norm_num)) (by linarith)
  · exact mul_le_mul_of_nonneg_right
      ((div_le_div_right (by norm_num : (0 : ℚ) < 100)).mpr h12)
      (by linarith)
  · rw [npSort_length]
    calc q2 / 100 * ((xs.length : ℚ) - 1)
        ≤ 1 * ((xs.length : ℚ) - 1) := by
          apply mul_le_mul_of_nonneg_right _ (by linarith)
          rw [div_le_one (by norm_num : (0 : ℚ) < 100)]
          exact h100
      _ = (xs.length : ℚ) - 1 := one_mul _

theorem round_q_mono {a b : ℚ} (h : a ≤ b) : round a ≤ round b := by
  rw [round_eq, round_eq]
  exact Int.floor_mono (by linarith)

theorem round2_mono {a b : ℚ} (h : a ≤ b) : round2 a ≤ round2 b := by
  unfold round2
  apply (div_le_div_right (by norm_num : (0 : ℚ) < 100)).mpr
  exact_mod_cast round_q_mono (by linarith : 100 * a ≤ 100 * b)

theorem getD_map_range (f : ℕ → ℚ) {k i : ℕ} (h : i < k) :
    ((List.range k).map f).getD i 0 = f i := by
  rw [List.getD_eq_getElem _ _ (by simpa using h), List.getElem_map,
    List.getElem_range]

/-- C3: for every draw sequence and every valid input with at least one
simulated path, the returned `ProjectionResult` satisfies
`p10[i] ≤ p25[i] ≤ median[i] ≤ p75[i] ≤ p90[i]` at every year index,
including after the 2-decimal rounding of the outputs (`np.percentile`
with linear interpolation is monotone in the quantile, `np.median` equals
the 50th percentile, and rounding is monotone); moreover with
`simulationCount ≥ 1` the call indeed returns this result rather than
failing. -/
theorem projection_percentiles_ordered (draws : ℕ → ℕ → ℚ)
    (cb mc minf target g : ℚ) (years n : ℕ) (hn : 1 ≤ n) :
    project draws cb mc years minf target n g
        = some (runProjection draws cb mc years minf target n g) ∧
      ∀ i, i ≤ years →
        (runProjection draws cb mc years minf target n g).p10.getD i 0
            ≤ (runProjection draws cb mc years minf target n g).p25.getD
              i 0 ∧
          (runProjection draws cb mc years minf target n g).p25.getD i 0
            ≤ (runProjection draws cb mc years minf target n g).median.getD
              i 0 ∧
          (runProjection draws cb mc years minf target n g).median.getD i 0
            ≤ (runProjection draws cb mc years minf target n g).p75.getD
              i 0 ∧
          (runProjection draws cb mc years minf target n g).p75.getD i 0
            ≤ (runProjection draws cb mc years minf target n g).p90.getD
              i 0 := by
  constructor
  · unfold project
    rw [if_neg (by omega)]
  · intro i hi
    have hik : i < years + 1 := by omega
    have hcol : 1 ≤ (yearColumn draws cb mc g minf n i).length := by
      rw [yearColumn_length]
      exact hn
    show (((List.range (years + 1)).map fun i =>
        round2 (npPercentile (yearColumn draws cb mc g minf n i) 10)).getD
          i 0
        ≤ ((List.range (years + 1)).map fun i =>
        round2 (npPercentile (yearColumn draws cb mc g minf n i) 25)).getD
          i 0) ∧ _
    rw [getD_map_range _ hik, getD_map_range _ hik]
    refine ⟨round2_mono (npPercentile_mono _ hcol (by norm_num)
      (by norm_num) (by norm_num)), ?_⟩
    show (((List.range (years + 1)).map fun i =>
        round2 (npPercentile (yearColumn draws cb mc g minf n i) 25)).getD
          i 0
        ≤ ((List.range (years + 1)).map fun i =>
        round2 (npMedian (yearColumn draws cb mc g minf n i))).getD
          i 0) ∧ _
    rw [getD_map_range _ hik, getD_map_range _ hik,
      npMedian_eq_percentile _ hcol]
    refine ⟨round2_mono (npPercentile_mono _ hcol (by norm_num)
      (by norm_num) (by norm_num)), ?_⟩
    show (((List.range (years + 1)).map fun i =>
        round2 (npMedian (yearColumn draws cb mc g minf n i))).getD i 0
        ≤ ((List.range (years + 1)).map fun i =>
        round2 (npPercentile (yearColumn draws cb mc g minf n i) 75)).getD
          i 0) ∧ _
    rw [getD_map_range _ hik, getD_map_range _ hik,
      npMedian_eq_percentile _ hcol]
    refine ⟨round2_mono (npPercentile_mono _ hcol (by norm_num)
      (by norm_num) (by norm_num)), ?_⟩
    show ((List.range (years + 1)).map fun i =>
        round2 (npPercentile (yearColumn draws cb mc g minf n i) 75)).getD
          i 0
        ≤ ((List.range (years + 1)).map fun i =>
        round2 (npPercentile (yearColumn draws cb mc g minf n i) 90)).getD
          i 0
    rw [getD_map_range _ hik, getD_map_range _ hik]
    exact round2_mono (npPercentile_mono _ hcol (by norm_num)
      (by norm_num) (by norm_num))

theorem projection_percentiles_ordered_witness :
    project (fun _ _ => 0) 100 10 1 0 0 2 0
        = some (runProjection (fun _ _ => 0) 100 10 1 0 0 2 0) ∧
      ((runProjection (fun _ _ => 0) 100 10 1 0 0 2 0).p10.getD 0 0
          ≤ (runProjection (fun _ _ => 0) 100 10 1 0 0 2 0).p25.getD 0 0 ∧
        (runProjection (fun _ _ => 0) 100 10 1 0 0 2 0).p25.getD 0 0
          ≤ (runProjection (fun _ _ => 0) 100 10 1 0 0 2 0).median.getD
            0 0 ∧
        (runProjection (fun _ _ => 0) 100 10 1 0 0 2 0).median.getD 0 0
          ≤ (runProjection (fun _ _ => 0) 100 10 1 0 0 2 0).p75.getD 0 0 ∧
        (runProjection (fun _ _ => 0) 100 10 1 0 0 2 0).p75.getD 0 0
          ≤ (runProjection (fun _ _ => 0) 100 10 1 0 0 2 0).p90.getD
            0 0) :=
  ⟨(projection_percentiles_ordered (fun _ _ => 0) 100 10 0 0 0 1 2
      (by decide)).1,
    (projection_percentiles_ordered (fun _ _ => 0) 100 10 0 0 0 1 2
      (by decide)).2 0 (by decide)⟩

/-- Coupling invariant for the extra-payment monotonicity proof: two runs
carry the same static data (rate, minimum payment), rates are nonnegative,
and the second run's balance lies between 0 and the first run's. -/
def DomD (d1 d2 : DebtState) : Prop :=
  d1.rate = d2.rate ∧ d1.min_payment = d2.min_payment ∧
    0 ≤ d2.balance ∧ d2.balance ≤ d1.balance ∧ 0 ≤ d1.rate

/-- Pointwise coupling of the two runs' working-debt lists. -/
def Dom (l1 l2 : List DebtState) : Prop := List.Forall₂ DomD l1 l2

theorem DomD_accrue {d1 d2 : DebtState} (h : DomD d1 d2) :
    DomD (accrueDebt d1).1 (accrueDebt d2).1 ∧
      (accrueDebt d2).2 ≤ (accrueDebt d1).2 ∧ 0 ≤ (accrueDebt d1).2 := by
  obtain ⟨hr, hm, hb2, hb12, hrn⟩ := h
  have hrn2 : 0 ≤ d2.rate := hr ▸ hrn
  have hc2 : 0 ≤ d2.rate / 100 / 12 :=
    div_nonneg (div_nonneg hrn2 (by norm_num)) (by norm_num)
  unfold accrueDebt
  dsimp only
  by_cases h2 : 0 < d2.balance
  · have h1 : 0 < d1.balance := lt_of_lt_of_le h2 hb12
    rw [if_pos h1, if_pos h2, hr]
    have hmul := mul_le_mul_of_nonneg_right hb12 hc2
    refine ⟨⟨rfl, hm, ?_, ?_, hrn2⟩, le_of_eq rfl |>.trans hmul, ?_⟩
    · have := mul_nonneg hb2 hc2
      linarith
    · linarith
    · exact mul_nonneg (le_of_lt h1) hc2
  · rw [if_neg h2]
    by_cases h1 : 0 < d1.balance
    · rw [if_pos h1]
      have hmul : 0 ≤ d1.balance * (d1.rate / 100 / 12) :=
        mul_nonneg (le_of_lt h1) (hr ▸ hc2)
      exact ⟨⟨hr, hm, hb2, by linarith, hrn⟩, hmul, hmul⟩
    · rw [if_neg h1]
      exact ⟨⟨hr, hm, hb2, hb12, hrn⟩, le_refl 0, le_refl 0⟩

theorem Dom_accrue {l1 l2 : List DebtState} (h : Dom l1 l2) :
    Dom (accrue l1).1 (accrue l2).1 ∧
      (accrue l2).2 ≤ (accrue l1).2 ∧ 0 ≤ (accrue l1).2 := by
  induction h with
  | nil => exact ⟨List.Forall₂.nil, le_refl 0, le_refl 0⟩
  | @cons d1 d2 t1 t2 hd tl ih =>
    obtain ⟨hD, hle, hnn⟩ := DomD_accrue hd
    obtain ⟨ihD, ihle, ihnn⟩ := ih
    refine ⟨List.Forall₂.cons hD ihD, ?_, ?_⟩
    · show (accrueDebt d2).2 + ((t2.map fun d => (accrueDebt d).2).sum)
        ≤ (accrueDebt d1).2 + ((t1.map fun d => (accrueDebt d).2).sum)
      have h2 : ((t2.map fun d => (accrueDebt d).2).sum)
          ≤ ((t1.map fun d => (accrueDebt d).2).sum) := ihle
      linarith
    · show 0 ≤ (accrueDebt d1).2 + ((t1.map fun d => (accrueDebt d).2).sum)
      have h2 : (0 : ℚ) ≤ ((t1.map fun d => (accrueDebt d).2).sum) := ihnn
      linarith

theorem DomD_payMin {d1 d2 : DebtState} (h : DomD d1 d2) :
    DomD (payMinDebt d1).1 (payMinDebt d2).1 := by
  obtain ⟨hr, hm, hb2, hb12, hrn⟩ := h
  unfold payMinDebt
  dsimp only
  by_cases h2 : 0 < d2.balance
  · have h1 : 0 < d1.balance := lt_of_lt_of_le h2 hb12
    rw [if_pos h1, if_pos h2, ← hm]
    refine ⟨hr, rfl, ?_, ?_, hrn⟩
    · show 0 ≤ d2.balance - d1.min_payment ⊓ d2.balance
      have := min_le_right d1.min_payment d2.balance
      linarith
    · show d2.balance - d1.min_payment ⊓ d2.balance
        ≤ d1.balance - d1.min_payment ⊓ d1.balance
      rcases le_total d1.min_payment d2.balance with hc | hc
      · rw [min_eq_left hc, min_eq_left (le_trans hc hb12)]
        linarith
      · rw [min_eq_right hc]
        have h3 := min_le_left d1.min_payment d1.balance
        have h4 := min_le_right d1.min_payment d1.balance
        linarith
  · rw [if_neg h2]
    by_cases h1 : 0 < d1.balance
    · rw [if_pos h1]
      have hmin := min_le_right d1.min_payment d1.balance
      have hb2z : d2.balance = 0 := le_antisymm (le_of_not_lt h2) hb2
      refine ⟨hr, hm, hb2, ?_, hrn⟩
      show d2.balance ≤ d1.balance - d1.min_payment ⊓ d1.balance
      rw [hb2z]
      linarith
    · rw [if_neg h1]
      exact ⟨hr, hm, hb2, hb12, hrn⟩

theorem Dom_payMins {l1 l2 : List DebtState} (h : Dom l1 l2) :
    Dom (payMins l1).1 (payMins l2).1 := by
  induction h with
  | nil => exact List.Forall₂.nil
  | cons hd tl ih => exact List.Forall₂.cons (DomD_payMin hd) ih

theorem DomD_setMonth {d1 d2 : DebtState} (h : DomD d1 d2) (m1 m2 : ℕ) :
    DomD (if 0 < d1.balance then { d1 with months := m1 } else d1)
      (if 0 < d2.balance then { d2 with months := m2 } else d2) := by
  obtain ⟨hr, hm, hb2, hb12, hrn⟩ := h
  split <;> split <;> exact ⟨hr, hm, hb2, hb12, hrn⟩

theorem Dom_setMonths {l1 l2 : List DebtState} (h : Dom l1 l2)
    (m1 m2 : ℕ) : Dom (setMonths m1 l1) (setMonths m2 l2) := by
  induction h with
  | nil => exact List.Forall₂.nil
  | @cons d1 d2 t1 t2 hd tl ih =>
    exact List.Forall₂.cons (DomD_setMonth hd m1 m2) ih

theorem Dom_getD {l1 l2 : List DebtState} (h : Dom l1 l2) {k : ℕ}
    (hk : k < l1.length) :
    DomD (l1.getD k default) (l2.getD k default) := by
  have hk2 : k < l2.length := h.length_eq ▸ hk
  rw [List.getD_eq_get _ _ hk, List.getD_eq_get _ _ hk2]
  exact h.get hk hk2

theorem Dom_rate_getD {l1 l2 : List DebtState} (h : Dom l1 l2) (k : ℕ) :
    (l1.getD k default).rate = (l2.getD k default).rate := by
  by_cases hk : k < l1.length
  · exact (Dom_getD h hk).1
  · have hk2 : ¬ k < l2.length := h.length_eq ▸ hk
    rw [List.getD_eq_default _ _ (le_of_not_lt hk),
      List.getD_eq_default _ _ (le_of_not_lt hk2)]

theorem Dom_sortOrder {l1 l2 : List DebtState} (h : Dom l1 l2) :
    sortOrder true l1 = sortOrder true l2 := by
  unfold sortOrder
  rw [if_pos rfl, if_pos rfl, h.length_eq]
  congr 1
  funext i j
  simp only [Dom_rate_getD h]

theorem Dom_set {l1 l2 : List DebtState} (h : Dom l1 l2)
    {a1 a2 : DebtState} (ha : DomD a1 a2) :
    ∀ (i : ℕ), Dom (l1.set i a1) (l2.set i a2) := by
  induction h with
  | nil => exact fun i => List.Forall₂.nil
  | @cons d1 d2 t1 t2 hd tl ih =>
    intro i
    cases i with
    | zero =>
      rw [List.set_cons_zero, List.set_cons_zero]
      exact List.Forall₂.cons ha tl
    | succ k =>
      rw [List.set_cons_succ, List.set_cons_succ]
      exact List.Forall₂.cons hd (ih k)

theorem set_getD_self {l : List DebtState} {i : ℕ} :
    l.set i (l.getD i default) = l := by
  induction l generalizing i with
  | nil => rfl
  | cons a t ih =>
    cases i with
    | zero => rfl
    | succ k =>
      show a :: t.set k (t.getD k default) = a :: t
      rw [ih]

theorem Dom_applyExtraStep {p q : List DebtState × ℚ} (h : Dom p.1 q.1)
    (hr : p.2 ≤ q.2) (i : ℕ) :
    Dom (applyExtraStep p i).1 (applyExtraStep q i).1 ∧
      (applyExtraStep p i).2 ≤ (applyExtraStep q i).2 := by
  by_cases hk : i < p.1.length
  · obtain ⟨hrate, hm, hb2, hb12, hrn⟩ := Dom_getD h hk
    unfold applyExtraStep
    dsimp only
    by_cases hg1 : 0 < (p.1.getD i default).balance ∧ 0 < p.2
    · rw [if_pos hg1]
      by_cases hg2 : 0 < (q.1.getD i default).balance ∧ 0 < q.2
      · rw [if_pos hg2]
        constructor
        · apply Dom_set h
          refine ⟨hrate, hm, ?_, ?_, hrn⟩
          · show 0 ≤ (q.1.getD i default).balance
              - q.2 ⊓ (q.1.getD i default).balance
            have := min_le_right q.2 (q.1.getD i default).balance
            linarith
          · show (q.1.getD i default).balance
                - q.2 ⊓ (q.1.getD i default).balance
              ≤ (p.1.getD i default).balance
                - p.2 ⊓ (p.1.getD i default).balance
            rcases le_total q.2 (q.1.getD i default).balance with hc | hc
            · rw [min_eq_left hc]
              have h3 := min_le_left p.2 (p.1.getD i default).balance
              linarith
            · rw [min_eq_right hc]
              have h3 := min_le_left p.2 (p.1.getD i default).balance
              have h4 := min_le_right p.2 (p.1.getD i default).balance
              linarith
        · show p.2 - p.2 ⊓ (p.1.getD i default).balance
            ≤ q.2 - q.2 ⊓ (q.1.getD i default).balance
          rcases le_total p.2 (p.1.getD i default).balance with hc | hc
          · rw [min_eq_left hc]
            have h3 := min_le_left q.2 (q.1.getD i default).balance
            linarith
          · rw [min_eq_right hc]
            have h3 := min_le_left q.2 (q.1.getD i default).balance
            have h4 := min_le_right q.2 (q.1.getD i default).balance
            linarith
      · rw [if_neg hg2]
        have hq2pos : 0 < q.2 := lt_of_lt_of_le hg1.2 hr
        have hb2z : (q.1.getD i default).balance = 0 := by
          rcases not_and_or.mp hg2 with hb | hrr
          · exact le_antisymm (le_of_not_lt hb) hb2
          · exact absurd hq2pos hrr
        constructor
        · have hset := Dom_set h
            (show DomD { p.1.getD i default with
                balance := (p.1.getD i default).balance
                  - p.2 ⊓ (p.1.getD i default).balance }
              (q.1.getD i default) from by
              refine ⟨hrate, hm, hb2, ?_, hrn⟩
              show (q.1.getD i default).balance
                ≤ (p.1.getD i default).balance
                  - p.2 ⊓ (p.1.getD i default).balance
              rw [hb2z]
              have h4 := min_le_right p.2 (p.1.getD i default).balance
              linarith) i
          rwa [set_getD_self] at hset
        · show p.2 - p.2 ⊓ (p.1.getD i default).balance ≤ q.2
          have h3 := lt_min hg1.2 hg1.1
          linarith [min_le_left p.2 (p.1.getD i default).balance]
    · rw [if_neg hg1]
      by_cases hg2 : 0 < (q.1.getD i default).balance ∧ 0 < q.2
      · rw [if_pos hg2]
        have hp2 : p.2 ≤ 0 := by
          rcases not_and_or.mp hg1 with hb | hrr
          · exfalso
            have hb1z : (p.1.getD i default).balance = 0 :=
              le_antisymm (le_of_not_lt hb) (le_trans hb2 hb12)
            have : (q.1.getD i default).balance ≤ 0 := by
              rw [← hb1z]; exact hb12
            exact absurd hg2.1 (not_lt.mpr this)
          · exact le_of_not_lt hrr
        constructor
        · have hset := Dom_set h
            (show DomD (p.1.getD i default)
              { q.1.getD i default with
                balance := (q.1.getD i default).balance
                  - q.2 ⊓ (q.1.getD i default).balance } from by
              refine ⟨hrate, hm, ?_, ?_, hrn⟩
              · show 0 ≤ (q.1.getD i default).balance
                  - q.2 ⊓ (q.1.getD i default).balance
                have := min_le_right q.2 (q.1.getD i default).balance
                linarith
              · show (q.1.getD i default).balance
                    - q.2 ⊓ (q.1.getD i default).balance
                  ≤ (p.1.getD i default).balance
                have h3 := lt_min hg2.2 hg2.1
                linarith) i
          rwa [set_getD_self] at hset
        · show p.2 ≤ q.2 - q.2 ⊓ (q.1.getD i default).balance
          have h3 := min_le_left q.2 (q.1.getD i default).balance
          linarith
      · rw [if_neg hg2]
        exact ⟨h, hr⟩
  · have hk2 : ¬ i < q.1.length := h.length_eq ▸ hk
    unfold applyExtraStep
    dsimp only
    rw [List.getD_eq_default _ _ (le_of_not_lt hk),
      List.getD_eq_default _ _ (le_of_not_lt hk2)]
    rw [if_neg (by rintro ⟨hb, -⟩; exact absurd hb (lt_irrefl 0)),
      if_neg (by rintro ⟨hb, -⟩; exact absurd hb (lt_irrefl 0))]
    exact ⟨h, hr⟩

theorem Dom_foldlExtra (order : List ℕ) :
    ∀ {p q : List DebtState × ℚ}, Dom p.1 q.1 → p.2 ≤ q.2 →
      Dom (order.foldl applyExtraStep p).1
          (order.foldl applyExtraStep q).1 ∧
        (order.foldl applyExtraStep p).2
          ≤ (order.foldl applyExtraStep q).2 := by
  induction order with
  | nil => exact fun h hr => ⟨h, hr⟩
  | cons i rest ih =>
    intro p q h hr
    obtain ⟨h', hr'⟩ := Dom_applyExtraStep h hr i
    exact ih h' hr'

/-- Nonnegative balances and rates, the well-formedness preserved by every
simulation phase (the source's inputs are validated to be nonnegative by
the caller's schema). -/
def GoodL (l : List DebtState) : Prop :=
  ∀ d ∈ l, 0 ≤ d.balance ∧ 0 ≤ d.rate

theorem Dom_good_left {l1 l2 : List DebtState} (h : Dom l1 l2) : GoodL l1 := by
  induction h with
  | nil =>
    intro d hd
    cases hd
  | cons hd tl ih =>
    intro d hmem
    rcases List.mem_cons.mp hmem with rfl | hmem
    · obtain ⟨hr, hm, hb2, hb12, hrn⟩ := hd
      exact ⟨le_trans hb2 hb12, hrn⟩
    · exact ih d hmem

theorem GoodL_accrue {l : List DebtState} (h : GoodL l) :
    GoodL (accrue l).1 := by
  intro d hd
  rcases List.mem_map.mp hd with ⟨d0, hd0, rfl⟩
  obtain ⟨hb, hr⟩ := h d0 hd0
  have hc : 0 ≤ d0.rate / 100 / 12 :=
    div_nonneg (div_nonneg hr (by norm_num)) (by norm_num)
  unfold accrueDebt
  dsimp only
  split
  · refine ⟨?_, hr⟩
    show 0 ≤ d0.balance + d0.balance * (d0.rate / 100 / 12)
    have := mul_nonneg hb hc
    linarith
  · exact ⟨hb, hr⟩

theorem GoodL_payMins {l : List DebtState} (h : GoodL l) :
    GoodL (payMins l).1 := by
  intro d hd
  rcases List.mem_map.mp hd with ⟨d0, hd0, rfl⟩
  obtain ⟨hb, hr⟩ := h d0 hd0
  unfold payMinDebt
  dsimp only
  split
  · refine ⟨?_, hr⟩
    show 0 ≤ d0.balance - d0.min_payment ⊓ d0.balance
    have := min_le_right d0.min_payment d0.balance
    linarith
  · exact ⟨hb, hr⟩

theorem GoodL_applyExtraStep {st : List DebtState × ℚ} (h : GoodL st.1)
    (i : ℕ) : GoodL (applyExtraStep st i).1 := by
  unfold applyExtraStep
  dsimp only
  split
  · rename_i hp
    by_cases hi : i < st.1.length
    · intro d hd
      rcases List.mem_or_eq_of_mem_set hd with hd | rfl
      · exact h d hd
      · have hmem : st.1.getD i default ∈ st.1 := by
          rw [List.getD_eq_getElem st.1 default hi]
          exact List.getElem_mem hi
        obtain ⟨hb, hr⟩ := h _ hmem
        refine ⟨?_, hr⟩
        show 0 ≤ (st.1.getD i default).balance
          - st.2 ⊓ (st.1.getD i default).balance
        have := min_le_right st.2 (st.1.getD i default).balance
        linarith
    · rw [List.getD_eq_default st.1 default (Nat.le_of_not_lt hi)] at hp
      exact absurd hp.1 (lt_irrefl _)
  · exact h

theorem GoodL_foldlExtra (order : List ℕ) :
    ∀ (st : List DebtState × ℚ), GoodL st.1 →
      GoodL (order.foldl applyExtraStep st).1 := by
  induction order with
  | nil => exact fun st h => h
  | cons i rest ih =>
    exact fun st h => ih (applyExtraStep st i) (GoodL_applyExtraStep h i)

theorem GoodL_setMonths {l : List DebtState} (h : GoodL l) (m : ℕ) :
    GoodL (setMonths m l) := by
  intro d hd
  rcases List.mem_map.mp hd with ⟨d0, hd0, rfl⟩
  obtain ⟨hb, hr⟩ := h d0 hd0
  split
  · exact ⟨hb, hr⟩
  · exact ⟨hb, hr⟩

theorem stepMonth_good {b : Bool} {e : ℚ} {s : SimState}
    (h : GoodL s.active) : GoodL (stepMonth b e s).active :=
  GoodL_setMonths
    (GoodL_foldlExtra (sortOrder b (accrue s.active).1)
      ((payMins (accrue s.active).1).1, e)
      (GoodL_payMins (GoodL_accrue h))) (s.months + 1)

theorem accrue_nonneg {l : List DebtState} (h : GoodL l) :
    0 ≤ (accrue l).2 := by
  apply List.sum_nonneg
  intro x hx
  rcases List.mem_map.mp hx with ⟨d0, hd0, rfl⟩
  obtain ⟨hb, hr⟩ := h d0 hd0
  unfold accrueDebt
  dsimp only
  split
  · exact mul_nonneg hb
      (div_nonneg (div_nonneg hr (by norm_num)) (by norm_num))
  · exact le_refl 0

theorem simLoop_run_ge (b : Bool) (e : ℚ) :
    ∀ (fuel : ℕ) (s : SimState), GoodL s.active →
      s.months ≤ (simLoop b e fuel s).months ∧
        s.total_interest ≤ (simLoop b e fuel s).total_interest
  | 0, s, _ => ⟨le_refl _, le_refl _⟩
  | fuel + 1, s, h => by
    rw [simLoop]
    split
    · have ih := simLoop_run_ge b e fuel (stepMonth b e s) (stepMonth_good h)
      have hm : s.months ≤ (stepMonth b e s).months := by
        rw [stepMonth_months]
        omega
      have hi : s.total_interest ≤ (stepMonth b e s).total_interest := by
        show s.total_interest ≤ s.total_interest + (accrue s.active).2
        have := accrue_nonneg h
        linarith
      exact ⟨le_trans hm ih.1, le_trans hi ih.2⟩
    · exact ⟨le_refl _, le_refl _⟩

theorem Dom_anyOverEps {l1 l2 : List DebtState} (h : Dom l1 l2)
    (ha : anyOverEps l2 = true) : anyOverEps l1 = true := by
  induction h with
  | nil => exact ha
  | @cons d1 d2 t1 t2 hd tl ih =>
    obtain ⟨hr, hm, hb2, hb12, hrn⟩ := hd
    rw [anyOverEps, List.any_cons, Bool.or_eq_true] at ha
    rw [anyOverEps, List.any_cons, Bool.or_eq_true]
    rcases ha with ha | ha
    · left
      rw [decide_eq_true_eq] at ha ⊢
      linarith
    · right
      exact ih ha

theorem Dom_applyExtra (order : List ℕ) {l1 l2 : List DebtState}
    {r1 r2 : ℚ} (h : Dom l1 l2) (hr : r1 ≤ r2) :
    Dom (applyExtra l1 r1 order).1 (applyExtra l2 r2 order).1 ∧
      (applyExtra l1 r1 order).2 ≤ (applyExtra l2 r2 order).2 :=
  @Dom_foldlExtra order (l1, r1) (l2, r2) h hr

theorem Dom_stepMonth_active {e1 e2 : ℚ} (he : e1 ≤ e2) {s1 s2 : SimState}
    (h : Dom s1.active s2.active) :
    Dom (stepMonth true e1 s1).active (stepMonth true e2 s2).active := by
  obtain ⟨hacc, -, -⟩ := Dom_accrue h
  have hord := Dom_sortOrder hacc
  have hext := Dom_applyExtra (sortOrder true (accrue s1.active).1)
    (Dom_payMins hacc) he
  show Dom
    (setMonths (s1.months + 1)
      (applyExtra (payMins (accrue s1.active).1).1 e1
        (sortOrder true (accrue s1.active).1)).1)
    (setMonths (s2.months + 1)
      (applyExtra (payMins (accrue s2.active).1).1 e2
        (sortOrder true (accrue s2.active).1)).1)
  rw [← hord]
  exact Dom_setMonths hext.1 _ _

theorem Dom_stepMonth_interest {e1 e2 : ℚ} {s1 s2 : SimState}
    (h : Dom s1.active s2.active)
    (hi : s2.total_interest ≤ s1.total_interest) :
    (stepMonth true e2 s2).total_interest
      ≤ (stepMonth true e1 s1).total_interest := by
  obtain ⟨-, hle, -⟩ := Dom_accrue h
  show s2.total_interest + (accrue s2.active).2
    ≤ s1.total_interest + (accrue s1.active).2
  linarith

theorem Dom_simLoop (e1 e2 : ℚ) (he : e1 ≤ e2) :
    ∀ (fuel : ℕ) (s1 s2 : SimState), Dom s1.active s2.active →
      s1.months = s2.months → s2.total_interest ≤ s1.total_interest →
      (simLoop true e2 fuel s2).months ≤ (simLoop true e1 fuel s1).months ∧
        (simLoop true e2 fuel s2).total_interest
          ≤ (simLoop true e1 fuel s1).total_interest
  | 0, s1, s2, h, hm, hi => ⟨le_of_eq hm.symm, hi⟩
  | fuel + 1, s1, s2, h, hm, hi => by
    rw [simLoop, simLoop]
    by_cases hg2 : (anyOverEps s2.active && decide (s2.months < 600)) = true
    · have hg1 : (anyOverEps s1.active && decide (s1.months < 600)) = true := by
        rw [Bool.and_eq_true] at hg2 ⊢
        refine ⟨Dom_anyOverEps h hg2.1, ?_⟩
        rw [hm]
        exact hg2.2
      rw [if_pos hg1, if_pos hg2]
      exact Dom_simLoop e1 e2 he fuel _ _ (Dom_stepMonth_active he h)
        (by rw [stepMonth_months, stepMonth_months, hm])
        (Dom_stepMonth_interest h hi)
    · rw [if_neg hg2]
      by_cases hg1 : (anyOverEps s1.active && decide (s1.months < 600)) = true
      · rw [if_pos hg1]
        have hge := simLoop_run_ge true e1 fuel (stepMonth true e1 s1)
          (stepMonth_good (Dom_good_left h))
        have hsi : s1.total_interest
            ≤ (stepMonth true e1 s1).total_interest := by
          show s1.total_interest
            ≤ s1.total_interest + (accrue s1.active).2
          have := accrue_nonneg (Dom_good_left h)
          linarith
        constructor
        · refine le_trans ?_ hge.1
          rw [stepMonth_months, ← hm]
          omega
        · exact le_trans hi (le_trans hsi hge.2)
      · rw [if_neg hg1]
        exact ⟨le_of_eq hm.symm, hi⟩

theorem Dom_refl_init (debts : List DebtInput)
    (hd : ∀ d ∈ debts, 0 ≤ d.balance ∧ 0 ≤ d.rate) :
    Dom (debts.map initDebt) (debts.map initDebt) := by
  induction debts with
  | nil => exact List.Forall₂.nil
  | cons a t ih =>
    obtain ⟨hb, hr⟩ := hd a (List.mem_cons_self a t)
    exact List.Forall₂.cons ⟨rfl, rfl, hb, le_refl _, hr⟩
      (ih fun d hdm => hd d (List.mem_cons_of_mem a hdm))

/-- C5 (amended): for the avalanche strategy — whose priority order depends
only on the rates, which never change — increasing the extra payment never
increases `months_to_free` or `total_interest` (balances and rates are
nonnegative per the caller's validation schema); the claim fails for the
snowball strategy, see the counterexample. -/
theorem avalanche_extra_monotone (debts : List DebtInput) (e1 e2 : ℚ)
    (hd : ∀ d ∈ debts, 0 ≤ d.balance ∧ 0 ≤ d.rate) (he : e1 ≤ e2) :
    (simulateDebtPayoff debts e2 "avalanche").months_to_free
        ≤ (simulateDebtPayoff debts e1 "avalanche").months_to_free ∧
      (simulateDebtPayoff debts e2 "avalanche").total_interest
        ≤ (simulateDebtPayoff debts e1 "avalanche").total_interest := by
  by_cases hemp : debts.isEmpty
  · simp [simulateDebtPayoff, hemp]
  · simp only [simulateDebtPayoff, hemp, if_false, Bool.false_eq_true]
    rw [show (("avalanche" : String) == "avalanche") = true from rfl]
    have hres := Dom_simLoop e1 e2 he 600
      ⟨debts.map initDebt, 0, 0, 0⟩ ⟨debts.map initDebt, 0, 0, 0⟩
      (Dom_refl_init debts hd) rfl (le_refl 0)
    exact ⟨hres.1, round2_mono hres.2⟩

theorem avalanche_extra_monotone_witness :
    (simulateDebtPayoff [⟨"a", 100, 12, 10⟩] 50
          "avalanche").months_to_free
        ≤ (simulateDebtPayoff [⟨"a", 100, 12, 10⟩] 0
          "avalanche").months_to_free ∧
      (simulateDebtPayoff [⟨"a", 100, 12, 10⟩] 50
          "avalanche").total_interest
        ≤ (simulateDebtPayoff [⟨"a", 100, 12, 10⟩] 0
          "avalanche").total_interest :=
  avalanche_extra_monotone [⟨"a", 100, 12, 10⟩] 0 50 (by decide) (by decide)

unseal Rat.add Rat.mul Rat.inv Rat.sub in
/-- C5 counterexample: under the snowball strategy, raising the extra
payment from 25 to 50 on the debts `[{balance 375, rate 60, min 200},
{balance 350, rate 0, min 100}]` INCREASES the total interest: the larger
extra flips the balance ordering in month 2, diverting payments to the
0%-rate debt while the 60%-rate debt keeps accruing. -/
theorem snowball_extra_not_monotone :
    (simulateDebtPayoff [⟨"d0", 375, 60, 200⟩, ⟨"d1", 350, 0, 100⟩] 25
        "snowball").total_interest
      < (simulateDebtPayoff [⟨"d0", 375, 60, 200⟩, ⟨"d1", 350, 0, 100⟩] 50
        "snowball").total_interest := by decide
